import Mathlib

/-!
Verification of the score synchronization subsystem of the ScoreTest
repository (a shared-counter web application).  The definitions below are a
shallow embedding of the load-bearing logic in `src/App.tsx` and
`src/services/supabase.ts`: JavaScript numbers are modelled as rationals
(`ℚ`), timestamps in milliseconds as integers (`ℤ`), the remote store and the
browser-local cache as explicit state records, and fallible remote calls as
`Except`-valued functions parameterised by an environment that says which
remote primitives succeed.
-/

/-- Constant from `src/App.tsx` line 10: `const BASE_DELTA = 5`. -/
def BASE_DELTA : ℚ := 5

/-- Constant from `src/App.tsx` line 12: `const RATE_MIN = 0.1`. -/
def RATE_MIN : ℚ := 0.1

/-- Constant from `src/App.tsx` line 13: `const RATE_NEUTRAL = 2`. -/
def RATE_NEUTRAL : ℚ := 2

/-- Constant from `src/App.tsx` line 14: `const RATE_MAX = 4`. -/
def RATE_MAX : ℚ := 4

/-- Embedding of `interpolate` (`src/App.tsx` lines 26-29): linear
interpolation sending `x1 ↦ y1` and `x2 ↦ y2`. -/
def interpolate (value x1 y1 x2 y2 : ℚ) : ℚ :=
  y1 + (y2 - y1) * ((value - x1) / (x2 - x1))

/-- Embedding of `getVoteDeltasForRate` (`src/App.tsx` lines 31-44): clamp the
rate to `[RATE_MIN, RATE_MAX]`, interpolate the up magnitude piecewise around
`RATE_NEUTRAL`, and give the down magnitude as `10 - upDelta`.  The returned
pair is `(upDelta, downMagnitude)`. -/
def getVoteDeltasForRate (rate : ℚ) : ℚ × ℚ :=
  let clampedRate := min RATE_MAX (max RATE_MIN rate)
  let upDelta :=
    if clampedRate ≤ RATE_NEUTRAL then
      interpolate clampedRate RATE_MIN (BASE_DELTA * 2) RATE_NEUTRAL BASE_DELTA
    else
      interpolate clampedRate RATE_NEUTRAL BASE_DELTA RATE_MAX 0
  (upDelta, 10 - upDelta)

lemma rateMin_le_clamped (r : ℚ) : RATE_MIN ≤ min RATE_MAX (max RATE_MIN r) := by
  refine le_min ?_ (le_max_left _ _)
  norm_num [RATE_MIN, RATE_MAX]

lemma clamped_le_rateMax (r : ℚ) : min RATE_MAX (max RATE_MIN r) ≤ RATE_MAX :=
  min_le_left _ _

/-- Clamping is idempotent, so `getVoteDeltasForRate` only sees values in
`[RATE_MIN, RATE_MAX]`. -/
lemma clamp_idem (r : ℚ) :
    min RATE_MAX (max RATE_MIN (min RATE_MAX (max RATE_MIN r)))
      = min RATE_MAX (max RATE_MIN r) := by
  have h1 := rateMin_le_clamped r
  have h2 := clamped_le_rateMax r
  rw [max_eq_right h1, min_eq_right h2]

/-- The up magnitude never exceeds `10` (its value at the minimum rate). -/
lemma upDelta_le_ten (r : ℚ) : (getVoteDeltasForRate r).1 ≤ 10 := by
  have h1 := rateMin_le_clamped r
  have h2 := clamped_le_rateMax r
  unfold getVoteDeltasForRate
  set c := min RATE_MAX (max RATE_MIN r) with hc
  simp only []
  split_ifs with h
  · have ht : (0:ℚ) ≤ (c - RATE_MIN) / (RATE_NEUTRAL - RATE_MIN) := by
      apply div_nonneg
      · linarith
      · norm_num [RATE_NEUTRAL, RATE_MIN]
    simp only [interpolate, BASE_DELTA]
    set t := (c - RATE_MIN) / (RATE_NEUTRAL - RATE_MIN) with htdef
    linarith
  · have ht : (0:ℚ) ≤ (c - RATE_NEUTRAL) / (RATE_MAX - RATE_NEUTRAL) := by
      apply div_nonneg
      · simp only [RATE_NEUTRAL] at h ⊢
        linarith
      · norm_num [RATE_MAX, RATE_NEUTRAL]
    simp only [interpolate, BASE_DELTA]
    set t := (c - RATE_NEUTRAL) / (RATE_MAX - RATE_NEUTRAL) with htdef
    linarith

/-- C3: for every rate, `getVoteDeltasForRate` clamps the rate into
`[0.1, 4]` first (clamping is absorbed), the two magnitudes always sum to the
constant `10 = 2 * BASE_DELTA`, at the neutral rate `2` both magnitudes equal
`5`, and at the minimum rate `0.1` the up magnitude reaches its maximum `10`
while the down magnitude reaches its minimum `0`, the sum unchanged. -/
theorem c3_vote_deltas_conservation :
    (∀ r : ℚ,
      (getVoteDeltasForRate r).1 + (getVoteDeltasForRate r).2 = 10 ∧
      getVoteDeltasForRate r = getVoteDeltasForRate (min RATE_MAX (max RATE_MIN r)) ∧
      (getVoteDeltasForRate r).1 ≤ (getVoteDeltasForRate RATE_MIN).1 ∧
      (getVoteDeltasForRate RATE_MIN).2 ≤ (getVoteDeltasForRate r).2) ∧
    getVoteDeltasForRate RATE_NEUTRAL = (5, 5) ∧
    getVoteDeltasForRate RATE_MIN = (10, 0) ∧
    (10 : ℚ) = 2 * BASE_DELTA := by
  have hmin : getVoteDeltasForRate RATE_MIN = (10, 0) := by
    norm_num [getVoteDeltasForRate, interpolate, RATE_MIN, RATE_MAX, RATE_NEUTRAL, BASE_DELTA]
  refine ⟨?_, ?_, hmin, by norm_num [BASE_DELTA]⟩
  · intro r
    refine ⟨?_, ?_, ?_, ?_⟩
    · unfold getVoteDeltasForRate
      simp only []
      ring
    · unfold getVoteDeltasForRate
      rw [clamp_idem]
    · rw [hmin]
      exact upDelta_le_ten r
    · rw [hmin]
      have h := upDelta_le_ten r
      unfold getVoteDeltasForRate at h ⊢
      simp only [] at h ⊢
      linarith
  · norm_num [getVoteDeltasForRate, interpolate, RATE_MIN, RATE_MAX, RATE_NEUTRAL, BASE_DELTA]

/-- Constant from `src/App.tsx` line 7: `const COOLDOWN_MS = 5 * 60 * 1000`
(five minutes in milliseconds). -/
def COOLDOWN_MS : ℤ := 5 * 60 * 1000

/-- Embedding of `getRemainingTime` (`src/App.tsx` lines 80-85): read the
`COOLDOWN_KEY` timestamp from the browser-local cache; with no record the
remaining cooldown is `0`, otherwise it is
`max 0 (COOLDOWN_MS - (now - lastVoted))`.  Only the local cache is
consulted. -/
def getRemainingTime (lastVoted : Option ℤ) (now : ℤ) : ℤ :=
  match lastVoted with
  | none => 0
  | some t => max 0 (COOLDOWN_MS - (now - t))

/-- Modelled from the spec: the Cooldown Guard the specification describes,
which is not implemented under `src/` — it reads the last-mutation timestamp
from both the Local Cache and the Remote Store's cooldown ledger, computes
`max 0 (COOLDOWN_MS - (now - timestamp))` for each source, and gates the
mutation on the maximum of the two remaining durations. -/
def gateRemainingOfSpec (localRec remoteRec : Option ℤ) (now : ℤ) : ℤ :=
  max (getRemainingTime localRec now) (getRemainingTime remoteRec now)

/-- Embedding of the `HistoryEntry` rows written by `updateScore`
(`src/services/supabase.ts` lines 131-136, `src/types.ts`): the mutation's
delta and the score after applying it.  The `id` and `created_at` columns are
not modelled; chronological order is carried by list position. -/
structure HistoryEntry where
  delta : ℚ
  new_score : ℚ
deriving DecidableEq

/-- The shared remote store (`brady_stats` row `id = 1` and the
`score_history` table).  The history list is kept newest-first, matching the
descending `created_at` order `getHistory` reads it in
(`src/services/supabase.ts` lines 83-87). -/
structure RemoteStore where
  score : ℚ
  history : List HistoryEntry
deriving DecidableEq

/-- The state `updateScore` touches when the remote store is configured: the
remote store plus the browser-local `STORAGE_KEY` cache.  The cache stores the
decimal rendering of a number; it is modelled by the exact rational written,
and the `parseInt` read is modelled at read time by `jsParseIntOfRat`. -/
structure ClientState where
  remote : RemoteStore
  localCache : Option ℚ
deriving DecidableEq

/-- Outcomes of the remote calls `updateScore` makes, which the source code
observes only through error/null results: whether the `increment_score` RPC
returns without error and non-null, whether the `score_history` insert
errors, and whether the fallback `brady_stats` update errors. -/
structure Env where
  rpcOk : Bool
  historyFails : Bool
  updateFails : Bool
deriving DecidableEq

/-- Embedding of the history-append step of `updateScore`
(`src/services/supabase.ts` lines 130-140): insert a `{delta, new_score}` row;
an insert error is only logged, leaving the history unchanged. -/
def logHistory (env : Env) (delta finalScore : ℚ) (h : List HistoryEntry) :
    List HistoryEntry :=
  if env.historyFails then h else ⟨delta, finalScore⟩ :: h

/-- Embedding of `updateScore` (`src/services/supabase.ts` lines 97-148) in
the remote-configured branch (`supabase ≠ null`, lines 105-147).  First the
`increment_score` RPC is attempted; its body is a remote database function
that is not under `src/` and is modelled from the spec as an atomic
post-increment returning `score + delta`.  If the RPC errored or returned
null, the fallback reads the current score, computes `next = current + delta`
and writes `next` unconditionally, returning the written score; a fallback
write error is thrown.  Either way the history row is then inserted
(best-effort) and the new score is persisted to the local cache and
returned. -/
def updateScore (env : Env) (delta : ℚ) (cs : ClientState) :
    Except Unit (ClientState × ℚ) :=
  if env.rpcOk then
    let finalScore := cs.remote.score + delta
    Except.ok
      (⟨⟨finalScore, logHistory env delta finalScore cs.remote.history⟩,
        some finalScore⟩, finalScore)
  else
    let currentScore := cs.remote.score
    let nextScore := currentScore + delta
    if env.updateFails then Except.error ()
    else
      Except.ok
        (⟨⟨nextScore, logHistory env delta nextScore cs.remote.history⟩,
          some nextScore⟩, nextScore)

/-- Embedding of JavaScript `parseInt(x.toString(), 10)` applied to the
decimal rendering of a finite number `x`: it reads the leading integer part,
truncating toward zero (`parseInt("7.5") = 7`, `parseInt("-7.5") = -7`). -/
def jsParseIntOfRat (q : ℚ) : ℤ :=
  if 0 ≤ q then ⌊q⌋ else -⌊-q⌋

/-- Embedding of `getScore` (`src/services/supabase.ts` lines 51-54) in the
local-only branch (`supabase = null`): parse the cached string with
`parseInt`, or return `0` when nothing is stored. -/
def getScoreLocal (cache : Option ℚ) : ℚ :=
  match cache with
  | none => 0
  | some q => (jsParseIntOfRat q : ℚ)

/-- Embedding of `updateScore` (`src/services/supabase.ts` lines 97-103) in
the local-only branch: read the current score via `getScore`, compute
`next = current + delta`, store `next.toString()` and return `next`.  The
pair is (new cache contents, returned score). -/
def updateScoreLocal (delta : ℚ) (cache : Option ℚ) : Option ℚ × ℚ :=
  let next := getScoreLocal cache + delta
  (some next, next)

/-- Vote direction, from `handleVote`'s `'up' | 'down'` argument
(`src/App.tsx` line 150). -/
inductive Direction where
  | up
  | down
deriving DecidableEq

/-- Observable outcome of one `handleVote` call.  The source handler returns
nothing; the constructors distinguish the early return when the guard trips
(`ignored`), a completed mutation (`completed`), the catch branch
(`syncFailed`), and — for comparison with the spec's error taxonomy — an
`ErrCooldownActive` result carrying the remaining milliseconds, which the
source never produces. -/
inductive VoteOutcome where
  | ignored
  | completed
  | syncFailed
  | errCooldownActive (remainingMs : ℤ)
deriving DecidableEq

/-- The component state `handleVote` reads and writes (`src/App.tsx` lines
67-168): the score/cache state shared with the service, the `COOLDOWN_KEY`
timestamp, the `timeLeft` state, and the `isUpdating` re-entrancy flag. -/
structure AppState where
  cs : ClientState
  cooldownLastVoted : Option ℤ
  timeLeft : ℤ
  isUpdating : Bool
deriving DecidableEq

/-- Embedding of one whole `handleVote` call (`src/App.tsx` lines 150-168):
if `timeLeft > 0` or `isUpdating`, return at once with no writes; otherwise
compute the adjusted delta from the current rate, run `updateScore`, and on
success write the `COOLDOWN_KEY` timestamp and set `timeLeft` to
`COOLDOWN_MS`; on failure only the error banner changes.  `isUpdating` is
`true` strictly inside the call (see `handleVoteStart`) and `false` again in
the `finally` block, so a whole call maps `isUpdating` to its entry value. -/
def handleVote (env : Env) (rate : ℚ) (now : ℤ) (dir : Direction)
    (st : AppState) : AppState × VoteOutcome :=
  if 0 < st.timeLeft ∨ st.isUpdating then (st, .ignored)
  else
    let p := getVoteDeltasForRate rate
    let adjustedDelta := match dir with
      | .up => p.1
      | .down => -p.2
    match updateScore env adjustedDelta st.cs with
    | .error _ => (st, .syncFailed)
    | .ok (cs', _) =>
        (⟨cs', some now, COOLDOWN_MS, st.isUpdating⟩, .completed)

/-- Embedding of the synchronous prefix of `handleVote` (`src/App.tsx` lines
151-157): the guard `if (timeLeft > 0 || isUpdating) return;` followed by
`setIsUpdating(true)`.  The boolean result says whether the mutation
proceeds. -/
def handleVoteStart (st : AppState) : AppState × Bool :=
  if 0 < st.timeLeft ∨ st.isUpdating then (st, false)
  else ({ st with isUpdating := true }, true)

/-- Sequential composition of mutations through `updateScore` against one
shared remote store: each caller's RPC is a single atomic step, so an
interleaving of concurrent atomic-path callers is a linearization order of
their deltas. -/
def runMutations (env : Env) (ds : List ℚ) (cs : ClientState) : ClientState :=
  ds.foldl
    (fun c d =>
      match updateScore env d c with
      | .ok (c', _) => c'
      | .error _ => c)
    cs

/-- Concrete initial client state used by the witnesses: score `0`, empty
history, empty local cache. -/
def cs0 : ClientState := ⟨⟨0, []⟩, none⟩

/-- Environment in which every remote primitive succeeds. -/
def envAll : Env := ⟨true, false, false⟩

/-- Score delivered by `updateScore` on every successful path: the current
remote score plus the delta, with the history row appended best-effort and
the result mirrored to the local cache. -/
lemma updateScore_ok (env : Env) (delta : ℚ) (cs : ClientState)
    (h : env.rpcOk = true ∨ env.updateFails = false) :
    updateScore env delta cs =
      Except.ok
        (⟨⟨cs.remote.score + delta,
           logHistory env delta (cs.remote.score + delta) cs.remote.history⟩,
          some (cs.remote.score + delta)⟩, cs.remote.score + delta) := by
  rcases h with h | h
  · simp [updateScore, h]
  · unfold updateScore
    split_ifs with h1 h2
    · rfl
    · rw [h] at h2
      exact absurd h2 (by simp)
    · rfl

/-- C1: with the remote store configured, `updateScore delta` first attempts
the `increment_score` RPC and returns its post-increment result; only when
the RPC errors or returns null does it fall back to reading the current
score, computing `next = current + delta`, writing `next` unconditionally
and returning the written score (a fallback write error is thrown). -/
theorem c1_rpc_first_then_fallback :
    ∀ (env : Env) (delta : ℚ) (cs : ClientState),
      (env.rpcOk = true →
        updateScore env delta cs =
          Except.ok
            (⟨⟨cs.remote.score + delta,
               logHistory env delta (cs.remote.score + delta) cs.remote.history⟩,
              some (cs.remote.score + delta)⟩, cs.remote.score + delta)) ∧
      (env.rpcOk = false → env.updateFails = false →
        updateScore env delta cs =
          Except.ok
            (⟨⟨cs.remote.score + delta,
               logHistory env delta (cs.remote.score + delta) cs.remote.history⟩,
              some (cs.remote.score + delta)⟩, cs.remote.score + delta)) ∧
      (env.rpcOk = false → env.updateFails = true →
        updateScore env delta cs = Except.error ()) := by
  intro env delta cs
  refine ⟨fun h => updateScore_ok env delta cs (Or.inl h),
          fun _ h => updateScore_ok env delta cs (Or.inr h),
          fun h1 h2 => ?_⟩
  simp [updateScore, h1, h2]

/-- Concrete run of `c1_rpc_first_then_fallback`: RPC path, fallback path
and failing fallback at score `0`, delta `5`. -/
theorem c1_witness :
    (updateScore ⟨true, false, false⟩ 5 cs0 =
      Except.ok
        (⟨⟨cs0.remote.score + 5,
           logHistory ⟨true, false, false⟩ 5 (cs0.remote.score + 5) cs0.remote.history⟩,
          some (cs0.remote.score + 5)⟩, cs0.remote.score + 5)) ∧
    (updateScore ⟨false, false, false⟩ 5 cs0 =
      Except.ok
        (⟨⟨cs0.remote.score + 5,
           logHistory ⟨false, false, false⟩ 5 (cs0.remote.score + 5) cs0.remote.history⟩,
          some (cs0.remote.score + 5)⟩, cs0.remote.score + 5)) ∧
    (updateScore ⟨false, false, true⟩ 5 cs0 = Except.error ()) :=
  ⟨(c1_rpc_first_then_fallback ⟨true, false, false⟩ 5 cs0).1 rfl,
   (c1_rpc_first_then_fallback ⟨false, false, false⟩ 5 cs0).2.1 rfl rfl,
   (c1_rpc_first_then_fallback ⟨false, false, true⟩ 5 cs0).2.2 rfl rfl⟩

/-- C2: every successful mutation whose history insert succeeds appends an
entry recording the delta and a `new_score` equal to the score returned to
the caller, so the most recent history entry's resulting score equals the
returned new score, which is also what the local cache now holds. -/
theorem c2_history_head_matches_returned_score :
    ∀ (env : Env) (delta : ℚ) (cs : ClientState),
      env.historyFails = false →
      (env.rpcOk = true ∨ env.updateFails = false) →
      ∃ (cs' : ClientState) (s : ℚ),
        updateScore env delta cs = Except.ok (cs', s) ∧
        cs'.remote.history.head? = some ⟨delta, s⟩ ∧
        cs'.localCache = some s := by
  intro env delta cs hh hok
  refine ⟨_, _, updateScore_ok env delta cs hok, ?_, rfl⟩
  simp [logHistory, hh]

/-- Concrete run of `c2_history_head_matches_returned_score` at score `0`,
delta `5`, all remote primitives succeeding. -/
theorem c2_witness :
    ∃ (cs' : ClientState) (s : ℚ),
      updateScore ⟨true, false, false⟩ 5 cs0 = Except.ok (cs', s) ∧
      cs'.remote.history.head? = some ⟨5, s⟩ ∧
      cs'.localCache = some s :=
  c2_history_head_matches_returned_score ⟨true, false, false⟩ 5 cs0 rfl (Or.inl rfl)

/-- C7: when the history insert fails after the score update committed,
`updateScore` still succeeds: the score is not rolled back, the history is
left unchanged, the new score is persisted to the local cache and returned
to the caller. -/
theorem c7_history_failure_is_nonfatal :
    ∀ (env : Env) (delta : ℚ) (cs : ClientState),
      env.historyFails = true →
      (env.rpcOk = true ∨ env.updateFails = false) →
      updateScore env delta cs =
        Except.ok
          (⟨⟨cs.remote.score + delta, cs.remote.history⟩,
            some (cs.remote.score + delta)⟩, cs.remote.score + delta) := by
  intro env delta cs hh hok
  rw [updateScore_ok env delta cs hok]
  simp [logHistory, hh]

/-- Concrete run of `c7_history_failure_is_nonfatal`: RPC succeeds, history
insert fails, score `0`, delta `5`. -/
theorem c7_witness :
    updateScore ⟨true, true, false⟩ 5 cs0 =
      Except.ok
        (⟨⟨cs0.remote.score + 5, cs0.remote.history⟩,
          some (cs0.remote.score + 5)⟩, cs0.remote.score + 5) :=
  c7_history_failure_is_nonfatal ⟨true, true, false⟩ 5 cs0 rfl (Or.inl rfl)

/-- Final remote score after a sequence of atomic-path mutations: the initial
score plus the sum of the deltas. -/
lemma runMutations_score_rpcOk (env : Env) (h : env.rpcOk = true) :
    ∀ (ds : List ℚ) (cs : ClientState),
      (runMutations env ds cs).remote.score = cs.remote.score + ds.sum := by
  intro ds
  induction ds with
  | nil => intro cs; simp [runMutations]
  | cons d ds ih =>
      intro cs
      have hstep : updateScore env d cs =
          Except.ok
            (⟨⟨cs.remote.score + d,
               logHistory env d (cs.remote.score + d) cs.remote.history⟩,
              some (cs.remote.score + d)⟩, cs.remote.score + d) :=
        updateScore_ok env d cs (Or.inl h)
      have hfold : runMutations env (d :: ds) cs =
          runMutations env ds
            ⟨⟨cs.remote.score + d,
              logHistory env d (cs.remote.score + d) cs.remote.history⟩,
             some (cs.remote.score + d)⟩ := by
        simp [runMutations, hstep]
      rw [hfold, ih]
      simp
      ring

/-- C8: on the atomic-increment path, concurrent mutations linearize — for
every initial state and every interleaving (linearization order) of the
deltas `d1..dN`, the final remote score is the initial score plus the sum of
the deltas, and any two interleavings of the same multiset of deltas agree. -/
theorem c8_atomic_increments_linearize :
    ∀ (env : Env) (cs : ClientState) (ds ds' : List ℚ),
      env.rpcOk = true → ds.Perm ds' →
      (runMutations env ds cs).remote.score = cs.remote.score + ds.sum ∧
      (runMutations env ds' cs).remote.score =
        (runMutations env ds cs).remote.score := by
  intro env cs ds ds' h hperm
  refine ⟨runMutations_score_rpcOk env h ds cs, ?_⟩
  rw [runMutations_score_rpcOk env h ds cs, runMutations_score_rpcOk env h ds' cs,
    hperm.sum_eq]

/-- Concrete run of `c8_atomic_increments_linearize`: the interleavings
`[1, 2]` and `[2, 1]` from score `0` both end at `0 + 3`. -/
theorem c8_witness :
    (runMutations ⟨true, false, false⟩ [1, 2] cs0).remote.score =
      cs0.remote.score + ([1, 2] : List ℚ).sum ∧
    (runMutations ⟨true, false, false⟩ [2, 1] cs0).remote.score =
      (runMutations ⟨true, false, false⟩ [1, 2] cs0).remote.score :=
  c8_atomic_increments_linearize ⟨true, false, false⟩ cs0 [1, 2] [2, 1] rfl
    (List.Perm.swap 2 1 [])

/-- C9: `handleVote` is not re-entrant — while one mutation is in flight
(`isUpdating = true`), a second request is returned unstarted with the state
untouched; and whenever a request does proceed, it has set `isUpdating`
before any write is issued, so two calls from the same actor never overlap
their writes. -/
theorem c9_in_flight_request_rejected :
    ∀ st : AppState,
      (st.isUpdating = true → handleVoteStart st = (st, false)) ∧
      ((handleVoteStart st).2 = true → (handleVoteStart st).1.isUpdating = true) := by
  intro st
  constructor
  · intro h
    simp [handleVoteStart, h]
  · intro h
    unfold handleVoteStart at h ⊢
    split_ifs at h ⊢ with hg
    simp_all

/-- Concrete run of `c9_in_flight_request_rejected`: with a mutation in
flight, a second request at a quiescent cooldown is rejected unstarted. -/
theorem c9_witness :
    handleVoteStart ⟨cs0, none, 0, true⟩ = (⟨cs0, none, 0, true⟩, false) :=
  (c9_in_flight_request_rejected ⟨cs0, none, 0, true⟩).1 rfl

/-- Concrete application state on cooldown: `timeLeft = 1000` milliseconds
remain and no mutation is in flight. -/
def stCooldown : AppState := ⟨cs0, some 0, 1000, false⟩

/-- C6 counterexample: at a state whose remaining cooldown is `1000` ms, the
vote request is silently ignored — the outcome is `ignored`, not the
`ErrCooldownActive` error carrying the remaining milliseconds that the claim
describes. -/
theorem c6_counterexample_silent_ignore :
    (handleVote envAll 2 0 Direction.up stCooldown).2 = VoteOutcome.ignored ∧
    (handleVote envAll 2 0 Direction.up stCooldown).2 ≠
      VoteOutcome.errCooldownActive 1000 := by
  constructor
  · rfl
  · intro h
    exact absurd h (by decide)

/-- C6 as amended: a mutation request made while the remaining cooldown is
positive is ignored (the handler returns at once, signalling no error) and
performs no writes — the score, the history, the local cache and the
cooldown record are all unchanged. -/
theorem c6_cooldown_blocks_all_writes :
    ∀ (env : Env) (rate : ℚ) (now : ℤ) (dir : Direction) (st : AppState),
      0 < st.timeLeft →
      handleVote env rate now dir st = (st, VoteOutcome.ignored) := by
  intro env rate now dir st h
  simp [handleVote, h]

/-- Concrete run of `c6_cooldown_blocks_all_writes` at `stCooldown`. -/
theorem c6_witness :
    handleVote envAll 2 0 Direction.up stCooldown = (stCooldown, VoteOutcome.ignored) :=
  c6_cooldown_blocks_all_writes envAll 2 0 Direction.up stCooldown (by decide)

/-- C5 counterexample: with no local record but a remote cooldown record
written at time `1000000` (now), the code's gate value is `0` while the
claimed two-source maximum is `300000`, and the vote proceeds (outcome
`completed`) although the claimed remote cooldown is still fully active. -/
theorem c5_counterexample_remote_ignored :
    getRemainingTime none 1000000 = 0 ∧
    gateRemainingOfSpec none (some 1000000) 1000000 = 300000 ∧
    getRemainingTime none 1000000 ≠ gateRemainingOfSpec none (some 1000000) 1000000 ∧
    (handleVote envAll 2 1000000 Direction.up
        ⟨cs0, none, getRemainingTime none 1000000, false⟩).2 = VoteOutcome.completed := by
  refine ⟨rfl, by decide, by decide, ?_⟩
  rfl

/-- C5 as amended: the remaining cooldown that gates a mutation is computed
from the local cache alone as `max 0 (COOLDOWN_MS - (now - lastVoted))`, with
`COOLDOWN_MS` fixed at five minutes; no remote-store cooldown record is
consulted, and when no local record exists the remaining is zero. -/
theorem c5_local_only_cooldown :
    (∀ now : ℤ, getRemainingTime none now = 0) ∧
    (∀ t now : ℤ, getRemainingTime (some t) now = max 0 (COOLDOWN_MS - (now - t))) ∧
    COOLDOWN_MS = 300000 :=
  ⟨fun _ => rfl, fun _ _ => rfl, by decide⟩

/-- C10: in local-only mode `updateScore delta` returns `current + delta` and
persists it; a later `getScore` parses the stored rendering with `parseInt`
and so returns only the integer part.  The persist/read round-trip preserves
the score exactly iff the stored score is an integer, and for the fractional
magnitude `7.5` that `getVoteDeltasForRate` produces at the non-neutral rate
`1.05`, `getScore` after `updateScore` returns `7` while `updateScore`
returned `7.5`. -/
theorem c10_local_roundtrip_truncates :
    (∀ (delta : ℚ) (cache : Option ℚ),
      updateScoreLocal delta cache =
        (some (getScoreLocal cache + delta), getScoreLocal cache + delta)) ∧
    (∀ q : ℚ, getScoreLocal (some q) = q ↔ ∃ n : ℤ, q = (n : ℚ)) ∧
    (getVoteDeltasForRate (21/20)).1 = 15/2 ∧
    (updateScoreLocal (getVoteDeltasForRate (21/20)).1 none).2 = 15/2 ∧
    getScoreLocal (updateScoreLocal (getVoteDeltasForRate (21/20)).1 none).1 = 7 ∧
    (7 : ℚ) ≠ 15/2 := by
  have hdelta : (getVoteDeltasForRate (21/20)).1 = 15/2 := by
    norm_num [getVoteDeltasForRate, interpolate, RATE_MIN, RATE_MAX, RATE_NEUTRAL,
      BASE_DELTA]
  refine ⟨fun _ _ => rfl, ?_, hdelta, ?_, ?_, by norm_num⟩
  · intro q
    constructor
    · intro h
      exact ⟨jsParseIntOfRat q, h.symm⟩
    · rintro ⟨n, rfl⟩
      show ((jsParseIntOfRat (n : ℚ) : ℤ) : ℚ) = (n : ℚ)
      unfold jsParseIntOfRat
      split_ifs with h
      · simp
      · rw [show (-(n : ℚ)) = ((-n : ℤ) : ℚ) by push_cast; ring, Int.floor_intCast]
        push_cast
        ring
  · simp [updateScoreLocal, getScoreLocal, hdelta]
  · rw [show (updateScoreLocal (getVoteDeltasForRate (21/20)).1 none).1 =
        some (15/2 : ℚ) by simp [updateScoreLocal, getScoreLocal, hdelta]]
    norm_num [getScoreLocal, jsParseIntOfRat]

/-- Embedding of `seededUnitValue`'s hash loop (`src/App.tsx` lines 16-24):
FNV-1a over the seed's code units in 32-bit arithmetic (`hash ^= code;
hash = Math.imul(hash, 16777619)`), with the final `>>> 0` reading the bit
pattern as an unsigned 32-bit integer.  Modelled over `ℕ` with an explicit
`% 2 ^ 32` where the 32-bit multiply overflows. -/
def seededHash (seed : String) : ℕ :=
  seed.data.foldl (fun h c => ((h ^^^ c.toNat) * 16777619) % 4294967296) 2166136261

/-- Embedding of `seededUnitValue` (`src/App.tsx` lines 16-24): the 32-bit
hash divided by `4294967295`, giving a value in `[0, 1]`. -/
def seededUnitValue (seed : String) : ℚ :=
  (seededHash seed : ℚ) / 4294967295

lemma seededHash_fold_lt (l : List Char) :
    ∀ h : ℕ, h < 4294967296 →
      l.foldl (fun h c => ((h ^^^ c.toNat) * 16777619) % 4294967296) h < 4294967296 := by
  induction l with
  | nil => intro h hh; simpa using hh
  | cons c l ih =>
      intro h hh
      simp only [List.foldl_cons]
      exact ih _ (Nat.mod_lt _ (by norm_num))

lemma seededHash_lt (seed : String) : seededHash seed < 4294967296 :=
  seededHash_fold_lt seed.data 2166136261 (by norm_num)

lemma seededUnitValue_mem (seed : String) :
    0 ≤ seededUnitValue seed ∧ seededUnitValue seed ≤ 1 := by
  constructor
  · exact div_nonneg (by positivity) (by norm_num)
  · rw [seededUnitValue, div_le_one (by norm_num)]
    have h := seededHash_lt seed
    have h' : seededHash seed ≤ 4294967295 := by omega
    exact_mod_cast h'

/-- Embedding of `parseFloat(x.toFixed(2))` (`src/App.tsx` line 59): round to
the nearest hundredth. -/
noncomputable def toFixedTwo (x : ℝ) : ℝ :=
  ((round (x * 100) : ℤ) : ℝ) / 100

/-- Embedding of `rateFromSeededValue` (`src/App.tsx` lines 53-60): map a
unit-interval value through two symmetric square-root branches around
`RATE_NEUTRAL` (an inverse-CDF-style transform), then round to two
decimals.  Real-valued because `Math.sqrt` is. -/
noncomputable def rateFromSeededValue (u : ℚ) : ℝ :=
  let c : ℚ := (RATE_NEUTRAL - RATE_MIN) / (RATE_MAX - RATE_MIN)
  let rate : ℝ :=
    if u < c then
      ((RATE_MIN : ℚ) : ℝ) +
        Real.sqrt ((u : ℝ) * (((RATE_MAX - RATE_MIN : ℚ)) : ℝ) *
          (((RATE_NEUTRAL - RATE_MIN : ℚ)) : ℝ))
    else
      ((RATE_MAX : ℚ) : ℝ) -
        Real.sqrt ((1 - (u : ℝ)) * (((RATE_MAX - RATE_MIN : ℚ)) : ℝ) *
          (((RATE_MAX - RATE_NEUTRAL : ℚ)) : ℝ))
  toFixedTwo rate

/-- Embedding of `getDailyFederalFundsRate` (`src/App.tsx` lines 62-65):
feed the fixed prefix plus the calendar-date key through the seeded hash and
the rate transform.  The date key (`todayKey()` in the source) is the
function's only input; no random source and no network call occurs. -/
noncomputable def getDailyFederalFundsRate (dateKey : String) : ℝ :=
  rateFromSeededValue (seededUnitValue ("brady-fed-rate-" ++ dateKey))

lemma toFixedTwo_mem {x : ℝ} (h1 : (1/10 : ℝ) ≤ x) (h2 : x ≤ 4) :
    (1/10 : ℝ) ≤ toFixedTwo x ∧ toFixedTwo x ≤ 4 := by
  have hr := abs_sub_round (x * 100)
  rw [abs_le] at hr
  obtain ⟨hl, hu⟩ := hr
  have h9 : (9 : ℝ) < ((round (x * 100) : ℤ) : ℝ) := by linarith
  have h401 : ((round (x * 100) : ℤ) : ℝ) < 401 := by linarith
  have h10 : (10 : ℤ) ≤ round (x * 100) := by
    have h : (9 : ℤ) < round (x * 100) := by exact_mod_cast h9
    omega
  have h400 : round (x * 100) ≤ 400 := by
    have h : round (x * 100) < (401 : ℤ) := by exact_mod_cast h401
    omega
  constructor
  · have h : (10 : ℝ) ≤ ((round (x * 100) : ℤ) : ℝ) := by exact_mod_cast h10
    unfold toFixedTwo
    linarith
  · have h : ((round (x * 100) : ℤ) : ℝ) ≤ 400 := by exact_mod_cast h400
    unfold toFixedTwo
    linarith

lemma rateFromSeededValue_mem {u : ℚ} (h0 : 0 ≤ u) (h1 : u ≤ 1) :
    (1/10 : ℝ) ≤ rateFromSeededValue u ∧ rateFromSeededValue u ≤ 4 := by
  have hv0 : (0 : ℝ) ≤ (u : ℝ) := by exact_mod_cast h0
  have hv1 : (u : ℝ) ≤ 1 := by exact_mod_cast h1
  simp only [rateFromSeededValue]
  have e1 : (((RATE_MAX - RATE_MIN : ℚ)) : ℝ) = 39/10 := by
    norm_num [RATE_MAX, RATE_MIN]
  have e2 : (((RATE_NEUTRAL - RATE_MIN : ℚ)) : ℝ) = 19/10 := by
    norm_num [RATE_NEUTRAL, RATE_MIN]
  have e3 : (((RATE_MAX - RATE_NEUTRAL : ℚ)) : ℝ) = 2 := by
    norm_num [RATE_MAX, RATE_NEUTRAL]
  have e4 : ((RATE_MIN : ℚ) : ℝ) = 1/10 := by norm_num [RATE_MIN]
  have e5 : ((RATE_MAX : ℚ) : ℝ) = 4 := by norm_num [RATE_MAX]
  have e6 : ((RATE_NEUTRAL - RATE_MIN) / (RATE_MAX - RATE_MIN) : ℚ) = 19/39 := by
    norm_num [RATE_NEUTRAL, RATE_MIN, RATE_MAX]
  rw [e1, e2, e3, e4, e5, e6]
  split_ifs with h
  · have hvc : (u : ℝ) < 19/39 := by
      have h2 : ((u : ℚ) : ℝ) < ((19/39 : ℚ) : ℝ) := Rat.cast_lt.mpr h
      norm_num at h2
      exact h2
    apply toFixedTwo_mem
    · have hnn := Real.sqrt_nonneg ((u : ℝ) * (39/10) * (19/10))
      linarith
    · have harg : (u : ℝ) * (39/10) * (19/10) ≤ (19/10)^2 := by nlinarith
      have hs : Real.sqrt ((u : ℝ) * (39/10) * (19/10)) ≤ 19/10 := by
        calc Real.sqrt ((u : ℝ) * (39/10) * (19/10))
            ≤ Real.sqrt ((19/10)^2) := Real.sqrt_le_sqrt harg
          _ = 19/10 := Real.sqrt_sq (by norm_num)
      linarith
  · have hvc : (19/39 : ℝ) ≤ (u : ℝ) := by
      have h' : (19/39 : ℚ) ≤ u := le_of_not_lt h
      have h2 : (((19/39 : ℚ)) : ℝ) ≤ ((u : ℚ) : ℝ) := Rat.cast_le.mpr h'
      norm_num at h2
      exact h2
    apply toFixedTwo_mem
    · have harg : (1 - (u : ℝ)) * (39/10) * 2 ≤ (2:ℝ)^2 := by nlinarith
      have hs : Real.sqrt ((1 - (u : ℝ)) * (39/10) * 2) ≤ 2 := by
        calc Real.sqrt ((1 - (u : ℝ)) * (39/10) * 2)
            ≤ Real.sqrt ((2:ℝ)^2) := Real.sqrt_le_sqrt harg
          _ = 2 := Real.sqrt_sq (by norm_num)
      linarith
    · have hnn := Real.sqrt_nonneg ((1 - (u : ℝ)) * (39/10) * 2)
      linarith

/-- C4: the daily rate is a pure function of the calendar-date key — it is
derived from the per-day seed string alone, so recomputing it for the same
date yields the identical value, with no random source and no network call —
and its value always lies in `[0.1, 4]`. -/
theorem c4_daily_rate_pure_and_bounded :
    ∀ dateKey : String,
      getDailyFederalFundsRate dateKey = getDailyFederalFundsRate dateKey ∧
      getDailyFederalFundsRate dateKey =
        rateFromSeededValue (seededUnitValue ("brady-fed-rate-" ++ dateKey)) ∧
      (0.1 : ℝ) ≤ getDailyFederalFundsRate dateKey ∧
      getDailyFederalFundsRate dateKey ≤ 4 := by
  intro dateKey
  obtain ⟨h0, h1⟩ := seededUnitValue_mem ("brady-fed-rate-" ++ dateKey)
  obtain ⟨hl, hu⟩ := rateFromSeededValue_mem h0 h1
  refine ⟨rfl, rfl, ?_, hu⟩
  calc (0.1 : ℝ) = 1/10 := by norm_num
    _ ≤ getDailyFederalFundsRate dateKey := hl
